import Mathlib

/-!
Verification of the log normalization-and-redaction pipeline.

The development shallowly embeds the two components of the repository:

* the ingest lambda (`src/ingest/src/main.rs`): `func`, `handle_json`,
  `handle_plaintext`, together with models of the library behaviour it relies
  on (`http::HeaderMap` case-insensitive lookup, `HeaderValue::to_str`,
  `std::str::from_utf8`, `serde_json::from_str`, `uuid::Uuid`);
* the worker lambda (`src/worker/src/main.rs`): `handler`, `process_message`,
  `redact_phone_numbers`, `simulate_heavy_processing`.

Modelling conventions:

* Header maps are association lists of (name, value) strings; lookup is
  case-insensitive on the name and returns the first hit, as `http::HeaderMap`
  does.  Header values are Lean strings; `HeaderValue::to_str`'s
  visible-ASCII check is modelled explicitly by `toStrOk`.
* Request bodies are byte lists (`List Nat`); `std::str::from_utf8` is
  modelled by a full RFC 3629 UTF-8 decoder `utf8Decode`.
* `serde_json` is modelled by a fuel-based recursive-descent parser to a JSON
  AST plus struct deserializers that mirror serde's derived behaviour
  (unknown fields ignored, duplicate known field rejected, `Option` fields
  defaulting to `none` when missing or `null`).  JSON numbers are kept as
  validated lexemes; their floating-point value (and serde_json's f64 range
  check and 128-deep recursion limit) is outside the embedding and is never
  relevant to the verified claims.
* The regex character classes `\d` and `\w` are modelled in their ASCII
  interpretation (`Char.isDigit`, alphanumeric or underscore); every input in
  the spec's redaction contract is ASCII.
* Randomness (`Uuid::new_v4`) is an explicit 16-byte parameter; wall-clock
  time (`Utc::now`) is an explicit string parameter; the externally observed
  effect of SQS publication is the returned `NormalizedLog` value, and the
  externally observed effect of the DynamoDB write is captured by a
  `persistOk` predicate parameter.
-/

namespace Pipeline

/-! ## Character classes (ASCII interpretation of `\d` and `\w`) -/

/-- Class `\d` of the redaction regex: a decimal digit. -/
def isD (c : Char) : Bool := c.isDigit

/-- Class `\w`, the word-character class underlying the regex's `\b`:
alphanumeric or underscore. -/
def isW (c : Char) : Bool := c.isAlphanum || c == '_'

/-! ## Redaction (`redact_phone_numbers` in `src/worker/src/main.rs`)

The source compiles the regex `\b(?:\d{3}-\d{4}|\d{3}-\d{3}-\d{4})\b` and
calls `replace_all(text, "[REDACTED]")`: scanning left to right, at each
position the alternation is tried in order behind a word boundary, matches
are non-overlapping, and scanning resumes right after each match. -/

/-- Position `i` of `l` exists and holds a digit. -/
def dAt (l : List Char) (i : Nat) : Bool :=
  match l.get? i with
  | some c => isD c
  | none => false

/-- Position `i` of `l` exists and holds a hyphen. -/
def hyAt (l : List Char) (i : Nat) : Bool := l.get? i == some '-'

/-- The first alternative `\d{3}-\d{4}` matches at the head of `l`. -/
def phone8 (l : List Char) : Bool :=
  dAt l 0 && dAt l 1 && dAt l 2 && hyAt l 3 && dAt l 4 && dAt l 5 && dAt l 6 && dAt l 7

/-- The second alternative `\d{3}-\d{3}-\d{4}` matches at the head of `l`. -/
def phone12 (l : List Char) : Bool :=
  dAt l 0 && dAt l 1 && dAt l 2 && hyAt l 3 && dAt l 4 && dAt l 5 && dAt l 6 && hyAt l 7 &&
  dAt l 8 && dAt l 9 && dAt l 10 && dAt l 11

/-- The trailing `\b` after a match of length `n` chars: the match ends at the
end of input or is followed by a non-word character (the last matched
character is always a digit, hence a word character). -/
def bAfter (l : List Char) (n : Nat) : Bool :=
  match l.get? n with
  | none => true
  | some c => !isW c

/-- Length of the regex match at the head of `l`, if any: the engine tries
`\d{3}-\d{4}` first, then `\d{3}-\d{3}-\d{4}`; the two alternatives are
mutually exclusive (position 7 is a digit in one and a hyphen in the other).
The leading `\b` is checked by the caller, which tracks the previous
character. -/
def matchLen (l : List Char) : Option Nat :=
  if phone8 l && bAfter l 8 then some 8
  else if phone12 l && bAfter l 12 then some 12
  else none

/-- The replacement marker `[REDACTED]` as a character list. -/
def redChars : List Char := ['[', 'R', 'E', 'D', 'A', 'C', 'T', 'E', 'D', ']']

/-- The `replace_all` scan.  `skip` counts characters of an already-emitted
match still to be consumed; `prevWord` records whether the previous character
of the original text is a word character (for the leading `\b`; after a match
it is `true` since matches end in a digit). -/
def redactGo : Nat → Bool → List Char → List Char
  | _, _, [] => []
  | skip+1, _, _ :: cs => redactGo skip true cs
  | 0, prevWord, c :: cs =>
    match (if prevWord then none else matchLen (c :: cs)) with
    | some n => redChars ++ redactGo (n - 1) true cs
    | none => c :: redactGo 0 (isW c) cs

/-- Function `redact_phone_numbers` from `src/worker/src/main.rs`: replace every
non-overlapping, word-bounded occurrence of `DDD-DDDD` or `DDD-DDD-DDDD`
with `[REDACTED]`, left to right. -/
def redact_phone_numbers (text : String) : String :=
  String.mk (redactGo 0 false text.data)

/-! ### Reference redaction, written from the specification's words -/

/-- Modelled from the spec: the shape "exactly three digits, a hyphen, four
digits" (`DDD-DDDD`). -/
def shape8 : List Char → Bool
  | [a, b, c, h, d, e, f, g] =>
    isD a && isD b && isD c && h == '-' && isD d && isD e && isD f && isD g
  | _ => false

/-- Modelled from the spec: the shape "three digits, hyphen, three digits,
hyphen, four digits" (`DDD-DDD-DDDD`). -/
def shape12 : List Char → Bool
  | [a, b, c, h1, d, e, f, h2, g, i, j, k] =>
    isD a && isD b && isD c && h1 == '-' && isD d && isD e && isD f && h2 == '-' &&
    isD g && isD i && isD j && isD k
  | _ => false

/-- Modelled from the spec: the remainder of the text does not begin with a
word character (the right-hand word boundary of a match). -/
def noWordStart : List Char → Bool
  | [] => true
  | c :: _ => !isW c

/-- Modelled from the spec: scan the text left to right; at each position not
preceded by a word character try the two phone shapes in order, each required
to be followed by a word boundary; replace a match with `[REDACTED]` and
resume after it, otherwise keep the character. -/
def redactSpecGo (prevWord : Bool) (l : List Char) : List Char :=
  match l with
  | [] => []
  | c :: cs =>
    if !prevWord && shape8 ((c :: cs).take 8) && noWordStart ((c :: cs).drop 8) then
      redChars ++ redactSpecGo true ((c :: cs).drop 8)
    else if !prevWord && shape12 ((c :: cs).take 12) && noWordStart ((c :: cs).drop 12) then
      redChars ++ redactSpecGo true ((c :: cs).drop 12)
    else
      c :: redactSpecGo (isW c) cs
termination_by l.length
decreasing_by
  all_goals simp [List.length_drop]
  all_goals omega

/-- Modelled from the spec: the full redaction pass over a string. -/
def redactSpec (s : String) : String := String.mk (redactSpecGo false s.data)

/-! ## UTF-8 decoding (`std::str::from_utf8` over the request body bytes) -/

/-- A UTF-8 continuation byte. -/
def contB (b : Nat) : Bool := 0x80 ≤ b && b ≤ 0xBF

/-- RFC 3629 UTF-8 decoding of a byte list, exactly the validation performed
by `std::str::from_utf8`: rejects overlong encodings, surrogates and
code points above `U+10FFFF`. -/
def utf8Decode : List Nat → Option (List Char)
  | [] => some []
  | b₀ :: r =>
    if b₀ ≤ 0x7F then (utf8Decode r).map (fun cs => Char.ofNat b₀ :: cs)
    else if 0xC2 ≤ b₀ && b₀ ≤ 0xDF then
      match r with
      | b₁ :: r₁ =>
        if contB b₁ then
          (utf8Decode r₁).map (fun cs => Char.ofNat ((b₀ - 0xC0) * 0x40 + (b₁ - 0x80)) :: cs)
        else none
      | [] => none
    else if 0xE0 ≤ b₀ && b₀ ≤ 0xEF then
      match r with
      | b₁ :: b₂ :: r₂ =>
        if (if b₀ = 0xE0 then 0xA0 ≤ b₁ && b₁ ≤ 0xBF
            else if b₀ = 0xED then 0x80 ≤ b₁ && b₁ ≤ 0x9F
            else contB b₁) && contB b₂ then
          (utf8Decode r₂).map (fun cs =>
            Char.ofNat ((b₀ - 0xE0) * 0x1000 + (b₁ - 0x80) * 0x40 + (b₂ - 0x80)) :: cs)
        else none
      | _ => none
    else if 0xF0 ≤ b₀ && b₀ ≤ 0xF4 then
      match r with
      | b₁ :: b₂ :: b₃ :: r₃ =>
        if (if b₀ = 0xF0 then 0x90 ≤ b₁ && b₁ ≤ 0xBF
            else if b₀ = 0xF4 then 0x80 ≤ b₁ && b₁ ≤ 0x8F
            else contB b₁) && contB b₂ && contB b₃ then
          (utf8Decode r₃).map (fun cs =>
            Char.ofNat ((b₀ - 0xF0) * 0x40000 + (b₁ - 0x80) * 0x1000 +
              (b₂ - 0x80) * 0x40 + (b₃ - 0x80)) :: cs)
        else none
      | _ => none
    else none

/-- UTF-8 bytes of an ASCII string, used to build concrete request bodies. -/
def asciiBytes (s : String) : List Nat := s.data.map Char.toNat

/-! ## JSON (`serde_json`)

`serde_json::from_str` is modelled as a recursive-descent parser to a JSON
AST followed by a struct deserializer.  Numbers are validated against the
JSON number grammar and kept as lexemes. -/

/-- JSON values; number literals are kept as their (validated) lexeme. -/
inductive Json where
  | null : Json
  | bool : Bool → Json
  | num : String → Json
  | str : String → Json
  | arr : List Json → Json
  | obj : List (String × Json) → Json

/-- JSON insignificant whitespace. -/
def isWs (c : Char) : Bool := c == ' ' || c == '\t' || c == '\n' || c == '\r'

/-- Skip leading JSON whitespace. -/
def skipWs : List Char → List Char
  | [] => []
  | c :: cs => if isWs c then skipWs cs else c :: cs

/-- Value of one hexadecimal digit. -/
def hexVal (c : Char) : Option Nat :=
  if '0' ≤ c ∧ c ≤ '9' then some (c.toNat - '0'.toNat)
  else if 'a' ≤ c ∧ c ≤ 'f' then some (c.toNat - 'a'.toNat + 10)
  else if 'A' ≤ c ∧ c ≤ 'F' then some (c.toNat - 'A'.toNat + 10)
  else none

/-- Value of a `\uXXXX` escape. -/
def hex4 (a b c d : Char) : Option Nat := do
  let x ← hexVal a
  let y ← hexVal b
  let z ← hexVal c
  let w ← hexVal d
  pure ((((x * 16 + y) * 16 + z) * 16) + w)

/-- Single-character JSON escapes. -/
def escMap (c : Char) : Option Char :=
  if c = '"' then some '"'
  else if c = '\\' then some '\\'
  else if c = '/' then some '/'
  else if c = 'b' then some (Char.ofNat 8)
  else if c = 'f' then some (Char.ofNat 12)
  else if c = 'n' then some '\n'
  else if c = 'r' then some '\r'
  else if c = 't' then some '\t'
  else none

/-- Parse a JSON string body after the opening quote, returning the decoded
characters and the rest of the input.  Unescaped control characters and lone
surrogates are rejected, exactly as `serde_json` does. -/
def parseStrBody : List Char → Option (List Char × List Char)
  | [] => none
  | '"' :: rest => some ([], rest)
  | '\\' :: 'u' :: a :: b :: c :: d :: rest =>
    match hex4 a b c d with
    | none => none
    | some n =>
      if 0xD800 ≤ n ∧ n ≤ 0xDBFF then
        match rest with
        | '\\' :: 'u' :: e :: f :: g :: h :: rest2 =>
          match hex4 e f g h with
          | none => none
          | some m =>
            if 0xDC00 ≤ m ∧ m ≤ 0xDFFF then
              match parseStrBody rest2 with
              | some (s, r) =>
                some (Char.ofNat (0x10000 + (n - 0xD800) * 0x400 + (m - 0xDC00)) :: s, r)
              | none => none
            else none
        | _ => none
      else if 0xDC00 ≤ n ∧ n ≤ 0xDFFF then none
      else
        match parseStrBody rest with
        | some (s, r) => some (Char.ofNat n :: s, r)
        | none => none
  | '\\' :: e :: rest =>
    match escMap e with
    | none => none
    | some ec =>
      match parseStrBody rest with
      | some (s, r) => some (ec :: s, r)
      | none => none
  | c :: rest =>
    if c.toNat < 0x20 then none
    else
      match parseStrBody rest with
      | some (s, r) => some (c :: s, r)
      | none => none

/-- Longest digit prefix and the rest. -/
def digitSpan : List Char → List Char × List Char
  | [] => ([], [])
  | c :: cs =>
    if isD c then
      let (d, r) := digitSpan cs
      (c :: d, r)
    else ([], c :: cs)

/-- Integer part of a JSON number: `0`, or a nonzero digit followed by
digits. -/
def parseIntPart : List Char → Option (List Char × List Char)
  | '0' :: r => some (['0'], r)
  | c :: r =>
    if isD c && c != '0' then
      let (d, r2) := digitSpan r
      some (c :: d, r2)
    else none
  | [] => none

/-- Optional fraction part `.digits`. -/
def parseFrac (l : List Char) : Option (List Char × List Char) :=
  match l with
  | '.' :: r =>
    match digitSpan r with
    | ([], _) => none
    | (d, r2) => some ('.' :: d, r2)
  | _ => some ([], l)

/-- Optional exponent part `[eE][+-]?digits`. -/
def parseExp (l : List Char) : Option (List Char × List Char) :=
  match l with
  | c :: r =>
    if c = 'e' ∨ c = 'E' then
      let (sg, r1) :=
        match r with
        | '+' :: r2 => ((['+'] : List Char), r2)
        | '-' :: r2 => ((['-'] : List Char), r2)
        | _ => ([], r)
      match digitSpan r1 with
      | ([], _) => none
      | (d, r2) => some (c :: (sg ++ d), r2)
    else some ([], l)
  | [] => some ([], [])

/-- Parse a JSON number, returning its lexeme and the rest of the input. -/
def parseNum (l : List Char) : Option (List Char × List Char) :=
  let (sgn, l1) :=
    match l with
    | '-' :: r => ((['-'] : List Char), r)
    | _ => ([], l)
  match parseIntPart l1 with
  | none => none
  | some (ip, r1) =>
    match parseFrac r1 with
    | none => none
    | some (fp, r2) =>
      match parseExp r2 with
      | none => none
      | some (ep, r3) => some (sgn ++ ip ++ fp ++ ep, r3)

/-- Opening brace character, `\x7b`. -/
def lbrace : Char := Char.ofNat 123

/-- Closing brace character, `\x7d`. -/
def rbrace : Char := Char.ofNat 125

mutual

/-- Parse one JSON value (fuel-based; the fuel chosen in `jsonFromStr` is
always sufficient for well-formed input). -/
def parseValue : Nat → List Char → Option (Json × List Char)
  | 0, _ => none
  | fuel+1, l =>
    match skipWs l with
    | 'n' :: 'u' :: 'l' :: 'l' :: r => some (.null, r)
    | 't' :: 'r' :: 'u' :: 'e' :: r => some (.bool true, r)
    | 'f' :: 'a' :: 'l' :: 's' :: 'e' :: r => some (.bool false, r)
    | '"' :: r =>
      match parseStrBody r with
      | some (s, r2) => some (.str (String.mk s), r2)
      | none => none
    | '[' :: r => parseArr fuel r
    | l2 =>
      match l2 with
      | c :: r =>
        if c = lbrace then parseObj fuel r
        else
          match parseNum l2 with
          | some (lex, r2) => some (.num (String.mk lex), r2)
          | none => none
      | [] => none

/-- Parse the inside of a JSON array, after the opening bracket. -/
def parseArr : Nat → List Char → Option (Json × List Char)
  | 0, _ => none
  | fuel+1, l =>
    match skipWs l with
    | ']' :: r => some (.arr [], r)
    | l2 =>
      match parseElems fuel l2 with
      | some (vs, r) => some (.arr vs, r)
      | none => none

/-- Parse a nonempty comma-separated list of array elements up to the
closing bracket. -/
def parseElems : Nat → List Char → Option (List Json × List Char)
  | 0, _ => none
  | fuel+1, l =>
    match parseValue fuel l with
    | none => none
    | some (v, r) =>
      match skipWs r with
      | ',' :: r2 =>
        match parseElems fuel r2 with
        | some (vs, r3) => some (v :: vs, r3)
        | none => none
      | ']' :: r2 => some ([v], r2)
      | _ => none

/-- Parse the inside of a JSON object, after the opening brace. -/
def parseObj : Nat → List Char → Option (Json × List Char)
  | 0, _ => none
  | fuel+1, l =>
    match skipWs l with
    | c :: r =>
      if c = rbrace then some (.obj [], r)
      else
        match parseMembers fuel (c :: r) with
        | some (ms, r2) => some (.obj ms, r2)
        | none => none
    | [] => none

/-- Parse a nonempty comma-separated list of object members up to the
closing brace. -/
def parseMembers : Nat → List Char → Option (List (String × Json) × List Char)
  | 0, _ => none
  | fuel+1, l =>
    match skipWs l with
    | '"' :: r =>
      match parseStrBody r with
      | none => none
      | some (k, r1) =>
        match skipWs r1 with
        | ':' :: r2 =>
          match parseValue fuel r2 with
          | none => none
          | some (v, r3) =>
            match skipWs r3 with
            | c :: r4 =>
              if c = ',' then
                match parseMembers fuel r4 with
                | some (ms, r5) => some ((String.mk k, v) :: ms, r5)
                | none => none
              else if c = rbrace then some ([(String.mk k, v)], r4)
              else none
            | [] => none
        | _ => none
    | _ => none

end

/-- Parse a complete JSON document: one value with only whitespace after
it. -/
def jsonFromStr (s : String) : Option Json :=
  match parseValue (3 * s.data.length + 3) s.data with
  | some (v, r) => if skipWs r = [] then some v else none
  | none => none

/-! ## Data model -/

/-- Struct `NormalizedLog`, the canonical shape produced by the ingest lambda and
consumed by the worker (`metadata` is modelled as an association list with
the `HashMap`'s lookup semantics). -/
structure NormalizedLog where
  tenant_id : String
  text : String
  source : Option String
  timestamp : Option String
  tags : Option (List String)
  metadata : Option (List (String × String))
deriving DecidableEq

/-- Struct `IncomingData`, the schema expected for an `application/json` body. -/
structure IncomingData where
  tenant_id : String
  log_id : String
  text : String
deriving DecidableEq

/-- Struct `ProcessedLog`, the record the worker writes to DynamoDB. -/
structure ProcessedLog where
  tenant_id : String
  log_id : String
  source : String
  original_text : String
  modified_data : String
  processed_at : String
deriving DecidableEq

/-! ## serde deserializers (derived `Deserialize` semantics) -/

/-- Number of members of a JSON object carrying the given key. -/
def keyCount (kvs : List (String × Json)) (k : String) : Nat :=
  (kvs.filter (fun p => p.1 == k)).length

/-- A required `String` field of a derived struct: present exactly once
(serde rejects a duplicated known field) and a JSON string. -/
def getStrField (kvs : List (String × Json)) (k : String) : Option String :=
  if keyCount kvs k == 1 then
    match kvs.lookup k with
    | some (Json.str s) => some s
    | _ => none
  else none

/-- Model of `serde_json::from_str::<IncomingData>` on an already-parsed value: a JSON
object whose `tenant_id`, `log_id` and `text` members are strings; unknown
members are ignored. -/
def IncomingData.fromJson : Json → Option IncomingData
  | .obj kvs => do
    let t ← getStrField kvs "tenant_id"
    let l ← getStrField kvs "log_id"
    let x ← getStrField kvs "text"
    pure ⟨t, l, x⟩
  | _ => none

/-- Model of `serde_json::from_str::<IncomingData>` on a body string. -/
def parseIncoming (s : String) : Option IncomingData :=
  (jsonFromStr s).bind IncomingData.fromJson

/-- Occurrences of a known field: missing (`some none`), present once
(`some (some v)`), or duplicated (`none`, a serde error). -/
def fieldOnce (kvs : List (String × Json)) (k : String) : Option (Option Json) :=
  match kvs.filter (fun p => p.1 == k) with
  | [] => some none
  | [p] => some p.2
  | _ => none

/-- A JSON string. -/
def asStr : Json → Option String
  | .str s => some s
  | _ => none

/-- Field type `Option<String>`: `null` gives `none`, a string gives `some`. -/
def asOptStr : Json → Option (Option String)
  | .null => some none
  | .str s => some (some s)
  | _ => none

/-- Field type `Option<Vec<String>>`: `null`, or an array of strings. -/
def asOptStrList : Json → Option (Option (List String))
  | .null => some none
  | .arr xs => (xs.mapM asStr).map some
  | _ => none

/-- Model of `HashMap` insertion: a later value for an existing key replaces the
earlier one. -/
def insertKV (m : List (String × String)) (k v : String) : List (String × String) :=
  if m.any (fun p => p.1 == k) then
    m.map (fun p => if p.1 == k then (p.1, v) else p)
  else m ++ [(k, v)]

/-- Field type `Option<HashMap<String, String>>`: `null`, or an object of string values
inserted in order. -/
def asOptStrMap : Json → Option (Option (List (String × String)))
  | .null => some none
  | .obj kvs =>
    (kvs.mapM (fun p => (asStr p.2).map (fun v => (p.1, v)))).map
      (fun ps => some (ps.foldl (fun m pv => insertKV m pv.1 pv.2) []))
  | _ => none

/-- Deserialize a required `String` field. -/
def reqStrField (kvs : List (String × Json)) (k : String) : Option String :=
  match fieldOnce kvs k with
  | some (some j) => asStr j
  | _ => none

/-- Deserialize an optional field: missing means `none`. -/
def optField {α : Type} (kvs : List (String × Json)) (k : String)
    (f : Json → Option (Option α)) : Option (Option α) :=
  match fieldOnce kvs k with
  | some none => some none
  | some (some j) => f j
  | none => none

/-- Model of `serde_json::from_str::<NormalizedLog>` on an already-parsed value, the
worker's message-body decoding. -/
def NormalizedLog.fromJson : Json → Option NormalizedLog
  | .obj kvs => do
    let t ← reqStrField kvs "tenant_id"
    let x ← reqStrField kvs "text"
    let src ← optField kvs "source" asOptStr
    let ts ← optField kvs "timestamp" asOptStr
    let tg ← optField kvs "tags" asOptStrList
    let md ← optField kvs "metadata" asOptStrMap
    pure ⟨t, x, src, ts, tg, md⟩
  | _ => none

/-- The worker's decode of an SQS message body into a `NormalizedLog`. -/
def parseNormalizedLog (s : String) : Option NormalizedLog :=
  (jsonFromStr s).bind NormalizedLog.fromJson

/-! ## Headers (`http::HeaderMap`) -/

/-- ASCII lowercasing of one character. -/
def lowerChar (c : Char) : Char :=
  if 65 ≤ c.toNat ∧ c.toNat ≤ 90 then Char.ofNat (c.toNat + 32) else c

/-- ASCII lowercasing of a string (header names are ASCII tokens). -/
def lowerStr (s : String) : String := String.mk (s.data.map lowerChar)

/-- Case-insensitive header lookup returning the first matching value, as
`HeaderMap::get` does (header names are matched ASCII-case-insensitively). -/
def headerGet (hs : List (String × String)) (name : String) : Option String :=
  (hs.find? (fun p => lowerStr p.1 == lowerStr name)).map (fun p => p.2)

/-- A byte `HeaderValue::to_str` accepts: horizontal tab or visible ASCII. -/
def visibleAscii (c : Char) : Bool := c == '\t' || (32 ≤ c.toNat && c.toNat ≤ 126)

/-- Model of `HeaderValue::to_str().ok()`: the value if it is entirely visible
ASCII. -/
def toStrOk (v : String) : Option String :=
  if v.data.all visibleAscii then some v else none

/-- The ingest lambda's content-type read:
`headers.get("content-type").or_else(|| headers.get("Content-Type"))`
followed by `to_str().ok()`. -/
def contentTypeOf (headers : List (String × String)) : Option String :=
  ((headerGet headers "content-type").or (headerGet headers "Content-Type")).bind toStrOk

/-- The plaintext branch's tenant read:
`headers.get("X-Tenant-ID").and_then(|v| v.to_str().ok())`. -/
def tenantOf (headers : List (String × String)) : Option String :=
  (headerGet headers "X-Tenant-ID").bind toStrOk

/-! ## UUIDs (`uuid::Uuid`) -/

/-- Lowercase hexadecimal digit. -/
def hexDigitChar (n : Nat) : Char :=
  if n < 10 then Char.ofNat (48 + n) else Char.ofNat (87 + n)

/-- Two hex digits of one byte. -/
def byteHex (b : Nat) : List Char := [hexDigitChar (b / 16 % 16), hexDigitChar (b % 16)]

/-- Hex rendering of a byte list. -/
def bytesHex (bs : List Nat) : List Char :=
  bs.foldr (fun b acc => byteHex b ++ acc) []

/-- Pad or truncate to exactly 16 bytes. -/
def pad16 (bs : List Nat) : List Nat := (bs ++ List.replicate 16 0).take 16

/-- Model of `Uuid::to_string()`: the 8-4-4-4-12 hyphenated lowercase hex form of 16
bytes. -/
def uuidFormat (bs : List Nat) : String :=
  let b := pad16 bs
  String.mk (bytesHex (b.take 4) ++ '-' :: bytesHex ((b.drop 4).take 2) ++
    '-' :: bytesHex ((b.drop 6).take 2) ++ '-' :: bytesHex ((b.drop 8).take 2) ++
    '-' :: bytesHex (b.drop 10))

/-- Model of `Uuid::new_v4` over the given 16 random bytes: sets the version nibble to
4 and the variant bits to `10`. -/
def setV4 (bs : List Nat) : List Nat :=
  let b := pad16 bs
  (b.set 6 (0x40 + b.getD 6 0 % 16)).set 8 (0x80 + b.getD 8 0 % 64)

/-- Model of `Uuid::new_v4().to_string()` as a function of the 16 random bytes. -/
def uuidV4String (bs : List Nat) : String := uuidFormat (setV4 bs)

/-- Model of `Uuid::nil().to_string()`, the worker's placeholder identifier. -/
def nilUuidString : String := uuidFormat (List.replicate 16 0)

/-! ## The ingest lambda (`src/ingest/src/main.rs`) -/

/-- The typed rejections of the normalizer.  The source reports them as
boxed error strings; the constructors record which failure occurred (and,
for an unsupported content type, the offending value). -/
inductive IngestError where
  | invalidUtf8 : IngestError
  | missingContentType : IngestError
  | unsupportedContentType : String → IngestError
  | schemaError : IngestError
  | missingTenant : IngestError
deriving DecidableEq

/-- Function `handle_json`: parse the body against `IncomingData` and build the
`NormalizedLog` with `source = "json"` and the client-supplied `log_id`
stored under `metadata["log_id"]`. -/
def handle_json (body : String) : Except IngestError NormalizedLog :=
  match parseIncoming body with
  | none => .error .schemaError
  | some inc =>
    .ok { tenant_id := inc.tenant_id, text := inc.text, source := some "json",
          timestamp := none, tags := none, metadata := some [("log_id", inc.log_id)] }

/-- Function `handle_plaintext`: require the `X-Tenant-ID` header, generate a fresh
`log_id` from the lambda's 16 random bytes, and build the `NormalizedLog`
with `source = "plaintext"` and the full decoded body as `text`. -/
def handle_plaintext (headers : List (String × String)) (body : String)
    (uuidBytes : List Nat) : Except IngestError NormalizedLog :=
  match tenantOf headers with
  | none => .error .missingTenant
  | some tenant =>
    .ok { tenant_id := tenant, text := body, source := some "plaintext",
          timestamp := none, tags := none,
          metadata := some [("log_id", uuidV4String uuidBytes)] }

/-- Function `func`, the ingest lambda handler: decode the body as UTF-8, dispatch on
the exact content-type value, and return the `NormalizedLog` published to
SQS, or the rejection.  `uuidBytes` are the random bytes drawn when the
plaintext branch generates its `log_id`. -/
def func (headers : List (String × String)) (body : List Nat) (uuidBytes : List Nat) :
    Except IngestError NormalizedLog :=
  match utf8Decode body with
  | none => .error .invalidUtf8
  | some cs =>
    match contentTypeOf headers with
    | some v =>
      if v = "text/plain" then handle_plaintext headers (String.mk cs) uuidBytes
      else if v = "application/json" then handle_json (String.mk cs)
      else .error (.unsupportedContentType v)
    | none => .error .missingContentType

/-! ## The worker lambda (`src/worker/src/main.rs`) -/

/-- Model of `HashMap::get` on the optional metadata map. -/
def metaLookup (md : Option (List (String × String))) (k : String) : Option String :=
  md.bind (fun m => m.lookup k)

/-- Function `simulate_heavy_processing`: the computed sleep duration in
milliseconds, `char_count * 50` as a `u64` (character count, not bytes). -/
def simulate_heavy_processing (text : String) : Nat :=
  (text.data.length * 50) % (2 ^ 64)

/-- Function `process_message`, its data path: redact the text, resolve `log_id` from
`metadata["log_id"]` with the nil-UUID default, default `source` to
`"unknown"`, and assemble the `ProcessedLog`; `now` is the
`Utc::now().to_rfc3339()` timestamp taken at assembly. -/
def process_message (log : NormalizedLog) (now : String) : ProcessedLog :=
  { tenant_id := log.tenant_id
    log_id := (metaLookup log.metadata "log_id").getD nilUuidString
    source := log.source.getD "unknown"
    original_text := log.text
    modified_data := redact_phone_numbers log.text
    processed_at := now }

/-- Function `process_message` together with the simulated delay it sleeps before
assembling the record; the delay has no bearing on the second component. -/
def process_message_timed (log : NormalizedLog) (now : String) : Nat × ProcessedLog :=
  (simulate_heavy_processing log.text, process_message log now)

/-- Per-message outcome of one SQS record within a batch. -/
inductive MsgOutcome where
  | missingBody : MsgOutcome
  | decodeFailed : MsgOutcome
  | processed : ProcessedLog → Bool → MsgOutcome
deriving DecidableEq

/-- The body of the worker's batch loop for one record: a missing body is
skipped, an undecodable body is skipped, and otherwise the message is
processed and its DynamoDB write succeeds or fails (`persistOk`); a failed
write is logged and swallowed. -/
def processRecord (body? : Option String) (now : String)
    (persistOk : ProcessedLog → Bool) : MsgOutcome :=
  match body? with
  | none => .missingBody
  | some b =>
    match parseNormalizedLog b with
    | none => .decodeFailed
    | some log => .processed (process_message log now) (persistOk (process_message log now))

/-- The worker's loop over the records of one SQS event: every failure arm
is a `continue`. -/
def handlerGo (records : List (Option String)) (now : String)
    (persistOk : ProcessedLog → Bool) : List MsgOutcome :=
  match records with
  | [] => []
  | r :: rs => processRecord r now persistOk :: handlerGo rs now persistOk

/-- Function `handler`: the per-record outcomes and the overall result returned to
the Lambda runtime, which is unconditionally `Ok(())` (`true`). -/
def handler (records : List (Option String)) (now : String)
    (persistOk : ProcessedLog → Bool) : List MsgOutcome × Bool :=
  (handlerGo records now persistOk, true)

deriving instance DecidableEq for Except

/-! ## Concrete inputs used by witnesses and counterexamples -/

/-- The spec's end-to-end JSON body. -/
def jsonBody1 : String :=
  "\x7b\"tenant_id\":\"t1\",\"log_id\":\"abc\",\"text\":\"call 555-1234\"\x7d"

/-- A schema-valid JSON body whose `tenant_id` field is the empty string. -/
def jsonBodyEmptyTenant : String :=
  "\x7b\"tenant_id\":\"\",\"log_id\":\"a\",\"text\":\"\"\x7d"

/-- Headers of a plaintext request whose `X-Tenant-ID` header is present but
not visible ASCII (its value fails `HeaderValue::to_str`). -/
def nonAsciiTenantHeaders : List (String × String) :=
  [("content-type", "text/plain"), ("X-Tenant-ID", "é")]

/-- Headers of a well-formed plaintext request. -/
def plainHeaders : List (String × String) :=
  [("content-type", "text/plain"), ("X-Tenant-ID", "t9")]

/-! # Theorems -/

/-! ## Helper lemmas -/

theorem handlerGo_eq_map (rs : List (Option String)) (now : String)
    (pOk : ProcessedLog → Bool) :
    handlerGo rs now pOk = rs.map (fun r => processRecord r now pOk) := by
  induction rs with
  | nil => rfl
  | cons r rs ih => simp [handlerGo, ih]

theorem bytesHex_length (bs : List Nat) : (bytesHex bs).length = 2 * bs.length := by
  induction bs with
  | nil => rfl
  | cons b bs ih =>
    simp [bytesHex, byteHex] at ih ⊢
    try omega

theorem pad16_length (bs : List Nat) : (pad16 bs).length = 16 := by
  simp [pad16]

theorem uuidFormat_length (bs : List Nat) : (uuidFormat bs).length = 36 := by
  have h16 : (pad16 bs).length = 16 := pad16_length bs
  simp [uuidFormat, String.length, bytesHex_length, h16]
  try omega

theorem uuidV4String_length (bs : List Nat) : (uuidV4String bs).length = 36 :=
  uuidFormat_length (setV4 bs)

theorem uuidV4String_ne_empty (bs : List Nat) : uuidV4String bs ≠ "" := by
  intro h
  have := uuidV4String_length bs
  rw [h] at this
  simp at this

/-! ## Redaction lemmas -/

theorem get?_append_lt {α : Type} (l₁ l₂ : List α) (n : Nat) (h : n < l₁.length) :
    (l₁ ++ l₂).get? n = l₁.get? n := by
  induction l₁ generalizing n with
  | nil => simp at h
  | cons a t ih =>
    cases n with
    | zero => rfl
    | succ m =>
      simp only [List.cons_append, List.get?_cons_succ]
      exact ih m (by simpa using h)

theorem get?_append_len {α : Type} (l₁ l₂ : List α) :
    (l₁ ++ l₂).get? l₁.length = l₂.head? := by
  induction l₁ with
  | nil => cases l₂ <;> rfl
  | cons a t ih => simpa using ih

theorem get?_take_lt {α : Type} (l : List α) (n m : Nat) (h : m < n) :
    (l.take n).get? m = l.get? m := by
  induction l generalizing n m with
  | nil => simp
  | cons a t ih =>
    cases n with
    | zero => simp at h
    | succ n' =>
      cases m with
      | zero => rfl
      | succ m' =>
        simp only [List.take_succ_cons, List.get?_cons_succ]
        exact ih n' m' (by omega)

theorem isD_isW {c : Char} (h : isD c = true) : isW c = true := by
  unfold isD at h
  simp [isW, Char.isAlphanum, h]

theorem dAt_congr {l₁ l₂ : List Char} {i : Nat} (h : l₁.get? i = l₂.get? i) :
    dAt l₁ i = dAt l₂ i := by
  unfold dAt
  rw [h]

theorem hyAt_congr {l₁ l₂ : List Char} {i : Nat} (h : l₁.get? i = l₂.get? i) :
    hyAt l₁ i = hyAt l₂ i := by
  unfold hyAt
  rw [h]

theorem bAfter_congr {l₁ l₂ : List Char} {n : Nat} (h : l₁.get? n = l₂.get? n) :
    bAfter l₁ n = bAfter l₂ n := by
  unfold bAfter
  rw [h]

theorem dAt_some {l : List Char} {i : Nat} (h : dAt l i = true) :
    ∃ y, l.get? i = some y ∧ isD y = true := by
  unfold dAt at h
  cases hy : l.get? i with
  | none => rw [hy] at h; simp at h
  | some y => rw [hy] at h; exact ⟨y, rfl, h⟩

theorem matchLen_cases {l : List Char} {n : Nat} (h : matchLen l = some n) :
    n = 8 ∨ n = 12 := by
  unfold matchLen at h
  split_ifs at h <;> simp_all

theorem matchLen_inv8 {l : List Char} (h : matchLen l = some 8) :
    phone8 l = true ∧ bAfter l 8 = true := by
  unfold matchLen at h
  split_ifs at h with h1 h2 <;> simp_all

theorem matchLen_inv12 {l : List Char} (h : matchLen l = some 12) :
    (phone8 l && bAfter l 8) = false ∧ phone12 l = true ∧ bAfter l 12 = true := by
  unfold matchLen at h
  split_ifs at h with h1 h2 <;> simp_all [Bool.and_eq_true]

theorem matchLen_none_iff {l : List Char} : matchLen l = none ↔
    (phone8 l && bAfter l 8) = false ∧ (phone12 l && bAfter l 12) = false := by
  unfold matchLen
  split_ifs with h1 h2 <;> simp_all

theorem matchLen_not_digit {c : Char} {t : List Char} (h : isD c = false) :
    matchLen (c :: t) = none := by
  have h8 : phone8 (c :: t) = false := by simp [phone8, dAt, h]
  have h12 : phone12 (c :: t) = false := by simp [phone12, dAt, h]
  simp [matchLen, h8, h12]

theorem matchLen_bAfter {l : List Char} {n : Nat} (h : matchLen l = some n) :
    bAfter l n = true := by
  rcases matchLen_cases h with rfl | rfl
  · exact (matchLen_inv8 h).2
  · exact (matchLen_inv12 h).2.2

theorem redactGo_skip (l : List Char) : ∀ (k : Nat) (pw : Bool),
    redactGo (k + 1) pw l = redactGo 0 true (l.drop (k + 1)) := by
  induction l with
  | nil => intro k pw; rfl
  | cons c cs ih =>
    intro k pw
    show redactGo k true cs = _
    cases k with
    | zero => rfl
    | succ k' =>
      rw [ih k' true]
      rfl

theorem redactGo_copy {c : Char} {cs : List Char} {pw : Bool}
    (h : pw = true ∨ matchLen (c :: cs) = none) :
    redactGo 0 pw (c :: cs) = c :: redactGo 0 (isW c) cs := by
  rcases h with rfl | hm
  · rfl
  · cases pw with
    | true => rfl
    | false =>
      show (match (if false then none else matchLen (c :: cs)) with
        | some n => redChars ++ redactGo (n - 1) true cs
        | none => c :: redactGo 0 (isW c) cs) = _
      rw [if_neg (by simp), hm]

theorem redactGo_match {c : Char} {cs : List Char} {n : Nat}
    (h : matchLen (c :: cs) = some n) :
    redactGo 0 false (c :: cs) = redChars ++ redactGo 0 true ((c :: cs).drop n) := by
  have hstep : redactGo 0 false (c :: cs) = redChars ++ redactGo (n - 1) true cs := by
    show (match (if false then none else matchLen (c :: cs)) with
      | some n => redChars ++ redactGo (n - 1) true cs
      | none => c :: redactGo 0 (isW c) cs) = _
    rw [if_neg (by simp), h]
  rcases matchLen_cases h with rfl | rfl
  · rw [hstep]
    show redChars ++ redactGo (6 + 1) true cs = _
    rw [redactGo_skip cs 6 true]
    rfl
  · rw [hstep]
    show redChars ++ redactGo (10 + 1) true cs = _
    rw [redactGo_skip cs 10 true]
    rfl

theorem redactGo_copy_nd {c : Char} {cs : List Char} (pw : Bool) (h : isD c = false) :
    redactGo 0 pw (c :: cs) = c :: redactGo 0 (isW c) cs :=
  redactGo_copy (Or.inr (matchLen_not_digit h))

theorem redactGo_red (pw : Bool) (m : List Char) :
    redactGo 0 pw (redChars ++ m) = redChars ++ redactGo 0 false m := by
  show redactGo 0 pw
    ('[' :: 'R' :: 'E' :: 'D' :: 'A' :: 'C' :: 'T' :: 'E' :: 'D' :: ']' :: m) = _
  rw [redactGo_copy_nd pw (by decide), redactGo_copy_nd _ (by decide),
    redactGo_copy_nd _ (by decide), redactGo_copy_nd _ (by decide),
    redactGo_copy_nd _ (by decide), redactGo_copy_nd _ (by decide),
    redactGo_copy_nd _ (by decide), redactGo_copy_nd _ (by decide),
    redactGo_copy_nd _ (by decide), redactGo_copy_nd _ (by decide)]
  rw [show isW ']' = false by decide]
  rfl

/-- Every scan output either is the input itself (no replacement happened)
or opens its first replacement after a faithfully copied prefix whose last
character, if any, is a non-word character. -/
theorem scan_shape (l : List Char) : ∀ pw : Bool,
    redactGo 0 pw l = l ∨
    ∃ a t, redactGo 0 pw l = a ++ '[' :: t ∧ l.take a.length = a ∧
      (pw = true → a ≠ []) ∧
      (∀ x, a.get? (a.length - 1) = some x → isW x = false) := by
  induction l with
  | nil => intro pw; exact Or.inl rfl
  | cons c cs ih =>
    intro pw
    have copyCase : redactGo 0 pw (c :: cs) = c :: redactGo 0 (isW c) cs →
        (redactGo 0 pw (c :: cs) = c :: cs ∨
        ∃ a t, redactGo 0 pw (c :: cs) = a ++ '[' :: t ∧ (c :: cs).take a.length = a ∧
          (pw = true → a ≠ []) ∧
          (∀ x, a.get? (a.length - 1) = some x → isW x = false)) := by
      intro hcp
      rcases ih (isW c) with h | ⟨a', t, h1, h2, h3, h4⟩
      · exact Or.inl (by rw [hcp, h])
      · refine Or.inr ⟨c :: a', t, ?_, ?_, fun _ => by simp, ?_⟩
        · rw [hcp, h1]
          rfl
        · simpa [List.take_succ_cons] using h2
        · intro x hx
          cases ha' : a' with
          | nil =>
            subst ha'
            simp at hx
            subst hx
            by_cases hw : isW c = true
            · exact absurd rfl (h3 hw)
            · simpa using hw
          | cons b t' =>
            subst ha'
            have harith : (c :: b :: t').length - 1 = t'.length + 1 := by
              simp
            rw [harith] at hx
            have hx' : (b :: t').get? ((b :: t').length - 1) = some x := by
              simpa using hx
            exact h4 x hx'
    by_cases hpw : pw = true
    · exact copyCase (redactGo_copy (Or.inl hpw))
    · cases hm : matchLen (c :: cs) with
      | none => exact copyCase (redactGo_copy (Or.inr hm))
      | some n =>
        have hpwf : pw = false := by simpa using hpw
        subst hpwf
        refine Or.inr ⟨[], 'R' :: 'E' :: 'D' :: 'A' :: 'C' :: 'T' :: 'E' :: 'D' :: ']' ::
          redactGo 0 true ((c :: cs).drop n), ?_, rfl, fun h => absurd h (by simp), ?_⟩
        · rw [redactGo_match hm]
          rfl
        · intro x hx
          simp at hx

theorem get?_eq_head?_drop {α : Type} (l : List α) (n : Nat) :
    l.get? n = (l.drop n).head? := by
  induction l generalizing n with
  | nil => simp
  | cons a t ih =>
    cases n with
    | zero => rfl
    | succ m => exact ih m

/-- The char right after a replacement opener `[` cannot begin or continue a
phone-shaped match: if the original text had no match at this position, the
rescanned text (with the copied prefix `a` followed by `[`) has none
either. -/
theorem no_match_shift {c : Char} {cs a t : List Char}
    (h2 : cs.take a.length = a) (ha : a ≠ [])
    (h4 : ∀ x, a.get? (a.length - 1) = some x → isW x = false)
    (hnd : matchLen (c :: cs) = none) :
    matchLen (c :: (a ++ '[' :: t)) = none := by
  have hag : ∀ i, i ≤ a.length → (c :: (a ++ '[' :: t)).get? i = (c :: cs).get? i := by
    intro i hi
    cases i with
    | zero => rfl
    | succ j =>
      have hj : j < a.length := by omega
      show (a ++ '[' :: t).get? j = cs.get? j
      rw [get?_append_lt a _ j hj]
      have htk := get?_take_lt cs a.length j hj
      rw [h2] at htk
      exact htk
  have hbrk : (c :: (a ++ '[' :: t)).get? (a.length + 1) = some '[' := by
    show (a ++ '[' :: t).get? a.length = some '['
    rw [get?_append_len]
    rfl
  have hlast : ∀ x, (c :: (a ++ '[' :: t)).get? a.length = some x → isW x = false := by
    intro x hx
    obtain ⟨b, a', rfl⟩ : ∃ b a', a = b :: a' := by
      cases a with
      | nil => exact absurd rfl ha
      | cons b a' => exact ⟨b, a', rfl⟩
    have hx' : ((b :: a') ++ '[' :: t).get? a'.length = some x := by simpa using hx
    rw [get?_append_lt _ _ _ (by simp)] at hx'
    exact h4 x (by simpa using hx')
  have hcontrD : ∀ i, dAt (c :: (a ++ '[' :: t)) i = true →
      (c :: (a ++ '[' :: t)).get? i = some '[' → False := by
    intro i hdi hgi
    obtain ⟨y, hy, hdy⟩ := dAt_some hdi
    rw [hgi] at hy
    have : y = '[' := by simpa using hy.symm
    subst this
    exact absurd hdy (by decide)
  have hcontrH : ∀ i, hyAt (c :: (a ++ '[' :: t)) i = true →
      (c :: (a ++ '[' :: t)).get? i = some '[' → False := by
    intro i hhi hgi
    unfold hyAt at hhi
    rw [hgi] at hhi
    simp at hhi
  have hlastD : ∀ i, i = a.length → dAt (c :: (a ++ '[' :: t)) i = true → False := by
    intro i hi hdi
    obtain ⟨y, hy, hdy⟩ := dAt_some hdi
    rw [hi] at hy
    exact absurd (isD_isW hdy) (by simp [hlast y hy])
  cases hm : matchLen (c :: (a ++ '[' :: t)) with
  | none => rfl
  | some n =>
    exfalso
    have hnone := matchLen_none_iff.mp hnd
    obtain ⟨k, hk⟩ : ∃ k, a.length = k := ⟨_, rfl⟩
    have hk1 : 1 ≤ k := by
      have := List.length_pos.mpr ha
      omega
    rcases matchLen_cases hm with rfl | rfl
    · obtain ⟨hp, hb⟩ := matchLen_inv8 hm
      by_cases hk8 : 8 ≤ k
      · have hp' : phone8 (c :: cs) = true := by
          unfold phone8 at hp ⊢
          rw [dAt_congr (hag 0 (by omega)), dAt_congr (hag 1 (by omega)),
            dAt_congr (hag 2 (by omega)), hyAt_congr (hag 3 (by omega)),
            dAt_congr (hag 4 (by omega)), dAt_congr (hag 5 (by omega)),
            dAt_congr (hag 6 (by omega)), dAt_congr (hag 7 (by omega))] at hp
          exact hp
        have hb' : bAfter (c :: cs) 8 = true := by
          rw [← bAfter_congr (hag 8 (by omega))]
          exact hb
        have h0 := hnone.1
        rw [hp', hb'] at h0
        simp at h0
      · simp only [phone8, Bool.and_eq_true] at hp
        obtain ⟨⟨⟨⟨⟨⟨⟨hd0, hd1⟩, hd2⟩, hy3⟩, hd4⟩, hd5⟩, hd6⟩, hd7⟩ := hp
        by_cases hk7 : k = 7
        · exact hlastD 7 (by omega) hd7
        · have hbk : (c :: (a ++ '[' :: t)).get? (k + 1) = some '[' := by
            rw [← hk]
            exact hbrk
          interval_cases k
          · exact hcontrD 2 hd2 hbk
          · exact hcontrH 3 hy3 hbk
          · exact hcontrD 4 hd4 hbk
          · exact hcontrD 5 hd5 hbk
          · exact hcontrD 6 hd6 hbk
          · exact hcontrD 7 hd7 hbk
          · exact absurd rfl hk7
    · obtain ⟨_, hp, hb⟩ := matchLen_inv12 hm
      by_cases hk12 : 12 ≤ k
      · have hp' : phone12 (c :: cs) = true := by
          unfold phone12 at hp ⊢
          rw [dAt_congr (hag 0 (by omega)), dAt_congr (hag 1 (by omega)),
            dAt_congr (hag 2 (by omega)), hyAt_congr (hag 3 (by omega)),
            dAt_congr (hag 4 (by omega)), dAt_congr (hag 5 (by omega)),
            dAt_congr (hag 6 (by omega)), hyAt_congr (hag 7 (by omega)),
            dAt_congr (hag 8 (by omega)), dAt_congr (hag 9 (by omega)),
            dAt_congr (hag 10 (by omega)), dAt_congr (hag 11 (by omega))] at hp
          exact hp
        have hb' : bAfter (c :: cs) 12 = true := by
          rw [← bAfter_congr (hag 12 (by omega))]
          exact hb
        have h0 := hnone.2
        rw [hp', hb'] at h0
        simp at h0
      · simp only [phone12, Bool.and_eq_true] at hp
        obtain ⟨⟨⟨⟨⟨⟨⟨⟨⟨⟨⟨hd0, hd1⟩, hd2⟩, hy3⟩, hd4⟩, hd5⟩, hd6⟩, hy7⟩, hd8⟩,
          hd9⟩, hd10⟩, hd11⟩ := hp
        by_cases hk11 : k = 11
        · exact hlastD 11 (by omega) hd11
        · have hbk : (c :: (a ++ '[' :: t)).get? (k + 1) = some '[' := by
            rw [← hk]
            exact hbrk
          interval_cases k
          · exact hcontrD 2 hd2 hbk
          · exact hcontrH 3 hy3 hbk
          · exact hcontrD 4 hd4 hbk
          · exact hcontrD 5 hd5 hbk
          · exact hcontrD 6 hd6 hbk
          · exact hcontrH 7 hy7 hbk
          · exact hcontrD 8 hd8 hbk
          · exact hcontrD 9 hd9 hbk
          · exact hcontrD 10 hd10 hbk
          · exact hcontrD 11 hd11 hbk
          · exact absurd rfl hk11

/-- If the scan found no match at the head of `c :: cs`, rescanning the
output of the tail scan still finds no match at the head. -/
theorem no_new_match {c : Char} {cs : List Char} (hnd : matchLen (c :: cs) = none) :
    matchLen (c :: redactGo 0 (isW c) cs) = none := by
  by_cases hd : isD c = true
  · rw [isD_isW hd]
    rcases scan_shape cs true with h | ⟨a, t, h1, h2, h3, h4⟩
    · rw [h]
      exact hnd
    · rw [h1]
      exact no_match_shift h2 (h3 rfl) h4 hnd
  · exact matchLen_not_digit (by simpa using hd)

/-- The scan is idempotent, by strong induction on the input length. -/
theorem redact_idem_aux : ∀ (N : Nat) (l : List Char) (pw : Bool), l.length ≤ N →
    redactGo 0 pw (redactGo 0 pw l) = redactGo 0 pw l := by
  intro N
  induction N with
  | zero =>
    intro l pw h
    have hl : l = [] := List.length_eq_zero.mp (Nat.le_zero.mp h)
    subst hl
    rfl
  | succ N ih =>
    intro l pw h
    cases l with
    | nil => rfl
    | cons c cs =>
      have hcs : cs.length ≤ N := by
        simp at h
        omega
      by_cases hpw : pw = true
      · subst hpw
        rw [redactGo_copy (Or.inl rfl), redactGo_copy (Or.inl rfl),
          ih cs (isW c) hcs]
      · have hpwf : pw = false := by simpa using hpw
        subst hpwf
        cases hm : matchLen (c :: cs) with
        | none =>
          rw [redactGo_copy (Or.inr hm), redactGo_copy (Or.inr (no_new_match hm)),
            ih cs (isW c) hcs]
        | some n =>
          rw [redactGo_match hm, redactGo_red]
          congr 1
          have hb := matchLen_bAfter hm
          cases hdp : (c :: cs).drop n with
          | nil => rfl
          | cons d ms =>
            have hgd : (c :: cs).get? n = some d := by
              rw [get?_eq_head?_drop, hdp]
              rfl
            have hwd : isW d = false := by
              unfold bAfter at hb
              rw [hgd] at hb
              simpa using hb
            have hdd : isD d = false := by
              cases hdd' : isD d with
              | false => rfl
              | true => exact absurd (isD_isW hdd') (by simp [hwd])
            have hms : ms.length ≤ N := by
              have := congrArg List.length hdp
              simp [List.length_drop] at this
              omega
            rw [show redactGo 0 true (d :: ms) = d :: redactGo 0 (isW d) ms from
              redactGo_copy (Or.inl rfl)]
            rw [hwd]
            rw [redactGo_copy_nd false hdd]
            rw [hwd]
            rw [ih ms false hms]

/-! ## Claim C6 -/

/-- C6: redaction is idempotent — applying `redact_phone_numbers` twice
yields the same string as applying it once (the marker `[REDACTED]` contains
no digits, so replacements never create new matches). -/
theorem C6_redaction_idempotent :
    ∀ s : String, redact_phone_numbers (redact_phone_numbers s) = redact_phone_numbers s := by
  intro s
  unfold redact_phone_numbers
  exact congrArg String.mk (redact_idem_aux s.data.length s.data false le_rfl)

/-! ## Equivalence of the scan with the spec's redaction -/

theorem some_beq_some {α : Type} [BEq α] (x y : α) : (some x == some y) = (x == y) := rfl

theorem shape8_take (l : List Char) : shape8 (l.take 8) = phone8 l := by
  rcases l with _ | ⟨a, _ | ⟨b, _ | ⟨c3, _ | ⟨d4, _ | ⟨e5, _ | ⟨f6, _ | ⟨g7, _ |
    ⟨h8, rest⟩⟩⟩⟩⟩⟩⟩⟩ <;>
    simp [shape8, phone8, dAt, hyAt, some_beq_some]

theorem shape12_take (l : List Char) : shape12 (l.take 12) = phone12 l := by
  rcases l with _ | ⟨a, _ | ⟨b, _ | ⟨c3, _ | ⟨d4, _ | ⟨e5, _ | ⟨f6, _ | ⟨g7, _ |
    ⟨h8, _ | ⟨i9, _ | ⟨j10, _ | ⟨k11, _ | ⟨m12, rest⟩⟩⟩⟩⟩⟩⟩⟩⟩⟩⟩⟩ <;>
    simp [shape12, phone12, dAt, hyAt, some_beq_some]

theorem noWordStart_bAfter (l : List Char) (n : Nat) :
    noWordStart (l.drop n) = bAfter l n := by
  unfold bAfter
  rw [get?_eq_head?_drop]
  cases hd : l.drop n <;> simp [noWordStart]

theorem redactSpecGo_nil (pw : Bool) : redactSpecGo pw [] = [] := by
  simp only [redactSpecGo]

theorem redactSpecGo_cons (pw : Bool) (c : Char) (cs : List Char) :
    redactSpecGo pw (c :: cs) =
      if !pw && shape8 ((c :: cs).take 8) && noWordStart ((c :: cs).drop 8) then
        redChars ++ redactSpecGo true ((c :: cs).drop 8)
      else if !pw && shape12 ((c :: cs).take 12) && noWordStart ((c :: cs).drop 12) then
        redChars ++ redactSpecGo true ((c :: cs).drop 12)
      else c :: redactSpecGo (isW c) cs := by
  simp only [redactSpecGo]

theorem spec_eq_aux : ∀ (N : Nat) (l : List Char) (pw : Bool), l.length ≤ N →
    redactGo 0 pw l = redactSpecGo pw l := by
  intro N
  induction N with
  | zero =>
    intro l pw h
    have hl : l = [] := List.length_eq_zero.mp (Nat.le_zero.mp h)
    subst hl
    rw [redactSpecGo_nil]
    rfl
  | succ N ih =>
    intro l pw h
    cases l with
    | nil =>
      rw [redactSpecGo_nil]
      rfl
    | cons c cs =>
      have hcs : cs.length ≤ N := by
        simp at h
        omega
      by_cases hpw : pw = true
      · subst hpw
        rw [redactGo_copy (Or.inl rfl), ih cs (isW c) hcs,
          redactSpecGo_cons, if_neg (by simp), if_neg (by simp)]
      · have hpwf : pw = false := by simpa using hpw
        subst hpwf
        cases hm : matchLen (c :: cs) with
        | none =>
          have hnone := matchLen_none_iff.mp hm
          have hc1 : (!false && shape8 ((c :: cs).take 8) &&
              noWordStart ((c :: cs).drop 8)) = false := by
            rw [shape8_take, noWordStart_bAfter]
            simpa using hnone.1
          have hc2 : (!false && shape12 ((c :: cs).take 12) &&
              noWordStart ((c :: cs).drop 12)) = false := by
            rw [shape12_take, noWordStart_bAfter]
            simpa using hnone.2
          rw [redactGo_copy (Or.inr hm), ih cs (isW c) hcs,
            redactSpecGo_cons, if_neg (by rw [hc1]; simp), if_neg (by rw [hc2]; simp)]
        | some n =>
          rcases matchLen_cases hm with rfl | rfl
          · obtain ⟨hp, hb⟩ := matchLen_inv8 hm
            have hc1 : (!false && shape8 ((c :: cs).take 8) &&
                noWordStart ((c :: cs).drop 8)) = true := by
              rw [shape8_take, noWordStart_bAfter, hp, hb]
              rfl
            rw [redactGo_match hm,
              ih ((c :: cs).drop 8) true (by simp [List.length_drop]; omega),
              redactSpecGo_cons, if_pos hc1]
          · obtain ⟨hf8, hp, hb⟩ := matchLen_inv12 hm
            have hc1 : (!false && shape8 ((c :: cs).take 8) &&
                noWordStart ((c :: cs).drop 8)) = false := by
              rw [shape8_take, noWordStart_bAfter]
              simpa using hf8
            have hc2 : (!false && shape12 ((c :: cs).take 12) &&
                noWordStart ((c :: cs).drop 12)) = true := by
              rw [shape12_take, noWordStart_bAfter, hp, hb]
              rfl
            rw [redactGo_match hm,
              ih ((c :: cs).drop 12) true (by simp [List.length_drop]; omega),
              redactSpecGo_cons, if_neg (by rw [hc1]; simp), if_pos hc2]

/-! ## Claim C3 -/

/-- C3: the redaction function replaces, left to right and without overlap,
every word-bounded substring of shape `DDD-DDDD` or `DDD-DDD-DDDD` with
`[REDACTED]` and leaves all other text unchanged — it coincides on every
string with the replacement pass written from the specification — and in
particular the spec's four boundary examples hold. -/
theorem C3_redaction_behavior :
    (∀ s : String, redact_phone_numbers s = redactSpec s) ∧
    redact_phone_numbers "call 555-1234 now" = "call [REDACTED] now" ∧
    redact_phone_numbers "555-555-1234" = "[REDACTED]" ∧
    redact_phone_numbers "12345-1234" = "12345-1234" ∧
    redact_phone_numbers "" = "" := by
  refine ⟨fun s => ?_, by decide, by decide, by decide, by decide⟩
  exact congrArg String.mk (spec_eq_aux s.data.length s.data false le_rfl)

/-! ## Claim C1 -/

/-- C1: for every body string that parses as JSON with fields
`{tenant_id, log_id, text}`, normalization with content-type
`application/json` succeeds and returns a `NormalizedLog` with
`source = "json"`, `metadata["log_id"]` equal to the client-supplied
`log_id`, and `tenant_id`/`text` copied from the body; a body missing a
required field or with invalid structure fails with a schema error.  The
third conjunct ties the `handle_json` branch to the full handler. -/
theorem C1_json_normalization :
    (∀ s t l x, parseIncoming s = some ⟨t, l, x⟩ →
      handle_json s = .ok (NormalizedLog.mk t x (some "json") none none
        (some [("log_id", l)]))) ∧
    (∀ s, parseIncoming s = none → handle_json s = .error .schemaError) ∧
    (∀ headers body u cs, utf8Decode body = some cs →
      contentTypeOf headers = some "application/json" →
      func headers body u = handle_json (String.mk cs)) := by
  refine ⟨fun s t l x h => ?_, fun s h => ?_, fun headers body u cs h1 h2 => ?_⟩
  · simp [handle_json, h]
  · simp [handle_json, h]
  · simp [func, h1, h2]

/-- Witness for C1 at the spec's end-to-end JSON body. -/
theorem C1_witness :
    handle_json jsonBody1 = .ok (NormalizedLog.mk "t1" "call 555-1234"
      (some "json") none none (some [("log_id", "abc")])) :=
  C1_json_normalization.1 jsonBody1 "t1" "abc" "call 555-1234" (by decide)

/-! ## Claim C2 -/

/-- C2 as stated is refutable: this plaintext request carries a present
`X-Tenant-ID` header, but its value is not visible ASCII, so the source's
`to_str().ok()` turns it into `None` and normalization is rejected with the
missing-tenant error instead of succeeding. -/
theorem C2_counterexample :
    headerGet nonAsciiTenantHeaders "X-Tenant-ID" = some "é" ∧
    func nonAsciiTenantHeaders (asciiBytes "hi") [] = .error .missingTenant :=
  ⟨by decide, by decide⟩

/-- C2 (amended): for every `text/plain` request whose `X-Tenant-ID` header
is present and readable as visible ASCII, normalization succeeds with
`source = "plaintext"`, `text` exactly the decoded body, `tags`/`timestamp`
unset, and `metadata["log_id"]` the freshly generated UUID — a function of
the random bytes alone (hence not derived from the content), always of
length 36 and non-empty. -/
theorem C2_plaintext_normalization :
    (∀ headers body u cs t, utf8Decode body = some cs →
      contentTypeOf headers = some "text/plain" → tenantOf headers = some t →
      func headers body u = .ok (NormalizedLog.mk t (String.mk cs)
        (some "plaintext") none none (some [("log_id", uuidV4String u)]))) ∧
    (∀ u, (uuidV4String u).length = 36 ∧ uuidV4String u ≠ "") := by
  refine ⟨fun headers body u cs t h1 h2 h3 => ?_,
    fun u => ⟨uuidV4String_length u, uuidV4String_ne_empty u⟩⟩
  simp [func, h1, h2, handle_plaintext, h3]

/-- Witness for C2 (amended) at a concrete plaintext request. -/
theorem C2_witness :
    func plainHeaders (asciiBytes "hello") (List.range 16) =
      .ok (NormalizedLog.mk "t9" (String.mk ['h', 'e', 'l', 'l', 'o'])
        (some "plaintext") none none
        (some [("log_id", uuidV4String (List.range 16))])) :=
  C2_plaintext_normalization.1 plainHeaders (asciiBytes "hello") (List.range 16)
    ['h', 'e', 'l', 'l', 'o'] "t9" (by decide) (by decide) (by decide)

/-! ## Claim C4 -/

/-- C4 as stated is refutable: a schema-valid JSON body whose `tenant_id`
field is the empty string is normalized successfully, so a `NormalizedLog`
with an empty `tenant_id` is published to the transport — the code checks
field presence, not non-emptiness. -/
theorem C4_counterexample :
    func [("content-type", "application/json")] (asciiBytes jsonBodyEmptyTenant) [] =
      .ok (NormalizedLog.mk "" "" (some "json") none none
        (some [("log_id", "a")])) := by
  decide

/-- C4 (amended): every `NormalizedLog` the handler returns for publication
has a `source` consistent with the branch that parsed it (`"json"` under
`application/json`, `"plaintext"` under `text/plain`), and a record failing
a required-field check is never published (the handler returns an error
instead); the `tenant_id`, however, is copied verbatim and may be empty. -/
theorem C4_publication_invariant :
    ∀ headers body u nl, func headers body u = .ok nl →
      ((contentTypeOf headers = some "application/json" ∧ nl.source = some "json") ∨
       (contentTypeOf headers = some "text/plain" ∧ nl.source = some "plaintext")) := by
  have hpl : ∀ headers body u nl, handle_plaintext headers body u = .ok nl →
      nl.source = some "plaintext" := by
    intro headers body u nl hk
    unfold handle_plaintext at hk
    cases ht : tenantOf headers with
    | none => rw [ht] at hk; exact absurd hk (by simp)
    | some t => rw [ht] at hk; cases hk; rfl
  have hjs : ∀ body nl, handle_json body = .ok nl → nl.source = some "json" := by
    intro body nl hk
    unfold handle_json at hk
    cases hp : parseIncoming body with
    | none => rw [hp] at hk; exact absurd hk (by simp)
    | some inc => rw [hp] at hk; cases hk; rfl
  intro headers body u nl hok
  cases hu : utf8Decode body with
  | none => simp [func, hu] at hok
  | some cs =>
    cases hc : contentTypeOf headers with
    | none => simp [func, hu, hc] at hok
    | some v =>
      simp only [func, hu, hc] at hok
      by_cases hv : v = "text/plain"
      · subst hv
        rw [if_pos rfl] at hok
        exact Or.inr ⟨rfl, hpl headers (String.mk cs) u nl hok⟩
      · by_cases hj : v = "application/json"
        · subst hj
          rw [if_neg hv, if_pos rfl] at hok
          exact Or.inl ⟨rfl, hjs (String.mk cs) nl hok⟩
        · rw [if_neg hv, if_neg hj] at hok
          exact absurd hok (by simp)

/-- Witness for C4 (amended) at a concrete plaintext request. -/
theorem C4_witness :
    (contentTypeOf plainHeaders = some "application/json" ∧
      (NormalizedLog.mk "t9" "hello" (some "plaintext") none none
        (some [("log_id", uuidV4String (List.range 16))])).source = some "json") ∨
    (contentTypeOf plainHeaders = some "text/plain" ∧
      (NormalizedLog.mk "t9" "hello" (some "plaintext") none none
        (some [("log_id", uuidV4String (List.range 16))])).source = some "plaintext") :=
  C4_publication_invariant plainHeaders (asciiBytes "hello") (List.range 16)
    (NormalizedLog.mk "t9" "hello" (some "plaintext") none none
      (some [("log_id", uuidV4String (List.range 16))])) (by decide)

/-! ## Claim C5 -/

/-- C5: a request with no content-type header, an unsupported content-type
value, a body that is not valid UTF-8, or a `text/plain` request lacking the
`X-Tenant-ID` header, is rejected with a typed error — the handler returns
`error` and no `NormalizedLog` is produced for publication. -/
theorem C5_rejection_cases :
    ∀ headers body u,
      ((headerGet headers "content-type").or (headerGet headers "Content-Type") = none ∨
       (∃ v, contentTypeOf headers = some v ∧ v ≠ "text/plain" ∧ v ≠ "application/json") ∨
       utf8Decode body = none ∨
       (contentTypeOf headers = some "text/plain" ∧
         headerGet headers "X-Tenant-ID" = none)) →
      ∃ e, func headers body u = .error e := by
  intro headers body u hd
  cases hu : utf8Decode body with
  | none => exact ⟨.invalidUtf8, by simp [func, hu]⟩
  | some cs =>
    rcases hd with h1 | ⟨v, hv, hv1, hv2⟩ | h3 | ⟨hct, hten⟩
    · have hc : contentTypeOf headers = none := by simp [contentTypeOf, h1]
      exact ⟨.missingContentType, by simp [func, hu, hc]⟩
    · exact ⟨.unsupportedContentType v, by simp [func, hu, hv, hv1, hv2]⟩
    · rw [h3] at hu; exact absurd hu (by simp)
    · have ht : tenantOf headers = none := by simp [tenantOf, hten]
      exact ⟨.missingTenant, by simp [func, hu, hct, handle_plaintext, ht]⟩

/-- Witness for C5 at a request with no headers at all. -/
theorem C5_witness : ∃ e, func [] [] [] = .error e :=
  C5_rejection_cases [] [] [] (Or.inl (by decide))

/-! ## Claim C7 -/

/-- C7: the processor's assembly never fails on missing optional fields —
an absent metadata map or an absent `metadata["log_id"]` entry yields the
deterministic nil-UUID placeholder, an absent `source` yields `"unknown"`,
and present values are propagated unchanged. -/
theorem C7_processor_defaults :
    (∀ log now, log.metadata = none →
      (process_message log now).log_id = nilUuidString) ∧
    (∀ log now m, log.metadata = some m → m.lookup "log_id" = none →
      (process_message log now).log_id = nilUuidString) ∧
    (∀ log now m v, log.metadata = some m → m.lookup "log_id" = some v →
      (process_message log now).log_id = v) ∧
    (∀ log now, log.source = none → (process_message log now).source = "unknown") ∧
    (∀ log now s, log.source = some s → (process_message log now).source = s) ∧
    nilUuidString = "00000000-0000-0000-0000-000000000000" := by
  refine ⟨?_, ?_, ?_, ?_, ?_, by decide⟩ <;>
    intros <;> simp [process_message, metaLookup, *]

/-- Witness for C7 at a record with no metadata at all. -/
theorem C7_witness :
    (process_message (NormalizedLog.mk "t" "x" none none none none) "NOW").log_id =
      nilUuidString :=
  C7_processor_defaults.1 (NormalizedLog.mk "t" "x" none none none none) "NOW" rfl

/-! ## Claim C8 -/

/-- C8: the worker handles each message of a batch independently — the
outcome list is the per-record map of the loop body, a record placed between
any prefix and suffix leaves both processed exactly as they would be alone,
and the handler reports overall success (`Ok(())`) to its invoker. -/
theorem C8_batch_isolation :
    ∀ (now : String) (pOk : ProcessedLog → Bool),
      (∀ rs, (handler rs now pOk).2 = true ∧
        (handler rs now pOk).1 = rs.map (fun r => processRecord r now pOk)) ∧
      (∀ pre r post, (handler (pre ++ r :: post) now pOk).1 =
        (handler pre now pOk).1 ++
          processRecord r now pOk :: (handler post now pOk).1) := by
  intro now pOk
  refine ⟨fun rs => ⟨rfl, handlerGo_eq_map rs now pOk⟩, fun pre r post => ?_⟩
  simp [handler, handlerGo_eq_map]

/-! ## Claim C9 -/

/-- C9: the simulated-workload step computes a suspension duration of
`character_count(text) * 50` milliseconds (as a `u64`, exact whenever the
product fits the machine width), which is `0` for the empty string, and the
delay component has no effect on the assembled record. -/
theorem C9_simulated_delay :
    (∀ s : String, s.data.length * 50 < 2 ^ 64 →
      simulate_heavy_processing s = s.data.length * 50) ∧
    simulate_heavy_processing "" = 0 ∧
    (∀ log now, (process_message_timed log now).2 = process_message log now) := by
  refine ⟨fun s h => ?_, rfl, fun log now => rfl⟩
  simpa [simulate_heavy_processing] using Nat.mod_eq_of_lt h

/-- Witness for C9 at a two-character text. -/
theorem C9_witness : simulate_heavy_processing "ab" = "ab".data.length * 50 :=
  C9_simulated_delay.1 "ab" (by decide)

/-! ## Claim C10 -/

/-- C10: content-type dispatch compares the full header value for exact
equality with `"text/plain"` or `"application/json"`; any other value — for
example one differing in case or carrying parameters — is rejected as
unsupported, while the header-name lookup itself is case-insensitive. -/
theorem C10_exact_dispatch :
    (∀ headers body u v cs, utf8Decode body = some cs →
      contentTypeOf headers = some v → v ≠ "text/plain" → v ≠ "application/json" →
      func headers body u = .error (.unsupportedContentType v)) ∧
    func [("CONTENT-TYPE", "Text/Plain")] (asciiBytes "x") [] =
      .error (.unsupportedContentType "Text/Plain") ∧
    func [("Content-Type", "application/json; charset=utf-8")] (asciiBytes "x") [] =
      .error (.unsupportedContentType "application/json; charset=utf-8") ∧
    headerGet [("CoNtEnT-TyPe", "text/plain")] "content-type" = some "text/plain" := by
  refine ⟨fun headers body u v cs h1 h2 hv1 hv2 => ?_, by decide, by decide, by decide⟩
  simp [func, h1, h2, hv1, hv2]

/-- Witness for C10 at the content type `text/html`. -/
theorem C10_witness :
    func [("content-type", "text/html")] (asciiBytes "x") [] =
      .error (.unsupportedContentType "text/html") :=
  C10_exact_dispatch.1 [("content-type", "text/html")] (asciiBytes "x") []
    "text/html" ['x'] (by decide) (by decide) (by decide) (by decide)

end Pipeline
